import Mathlib

/-!
Shallow embedding of the migrate.fun alert bot core: the migration
tracker (src/src/tracker.js), the time parser of the scraper module
(parseTimeToMinutes), and the glue in the main entry point that
attaches a parsed minutesUntil to each scraped record before calling
the tracker.  Timestamps are modelled as Int milliseconds, minute
values as exact rationals, and the persisted seen-migrations object as
a map from string keys to timestamps.
-/

namespace MigrateFun

/-- Urgency tiers, from the nested conditional in tracker.js
(minutesUntil <= 5 / 15 / 30, else scheduled). -/
inductive Tier where
  | imminent
  | soon
  | upcoming
  | scheduled
  deriving DecidableEq

/-- The string each tier contributes to an alert key. -/
def tierName : Tier → String
  | .imminent => "imminent"
  | .soon => "soon"
  | .upcoming => "upcoming"
  | .scheduled => "scheduled"

/-- Units recognised by parseTimeToMinutes: h/m/s in the compact form,
hour/minute/second/day in the word form. -/
inductive TimeUnit where
  | hourU
  | minuteU
  | secondU
  | dayU
  deriving DecidableEq

/-- Numeric value of a run of decimal digits, as parseInt computes it
on an all-digit string. -/
def natOfDigits (ds : List Char) : Nat :=
  ds.foldl (fun n c => n * 10 + (c.toNat - 48)) 0

/-- The unit letter of the compact form, case-insensitive. -/
def charUnit (c : Char) : Option TimeUnit :=
  if c = 'h' ∨ c = 'H' then some .hourU
  else if c = 'm' ∨ c = 'M' then some .minuteU
  else if c = 's' ∨ c = 'S' then some .secondU
  else none

/-- Leftmost match of the regex (\d+)\s*(h|m|s)/i: at each position, a
maximal digit run, optional whitespace, then a unit letter; on failure
the search restarts one character further right, exactly as the regex
engine does. -/
def scanShort : List Char → Option (Nat × TimeUnit)
  | [] => none
  | c :: cs =>
    if c.isDigit then
      let ds := (c :: cs).takeWhile Char.isDigit
      let afterWs := ((c :: cs).dropWhile Char.isDigit).dropWhile Char.isWhitespace
      match afterWs with
      | u :: _ =>
        match charUnit u with
        | some tu => some (natOfDigits ds, tu)
        | none => scanShort cs
      | [] => scanShort cs
    else scanShort cs

/-- Case-insensitive comparison of a lowercase pattern against the
start of a character list. -/
def matchesCI : List Char → List Char → Bool
  | [], _ => true
  | _ :: _, [] => false
  | p :: ps, c :: cs => p = c.toLower && matchesCI ps cs

/-- The word-form unit standing at the head of a character list
(hour|minute|second|day, case-insensitive; a trailing s is covered
because only the stem is matched). -/
def wordUnitAt (l : List Char) : Option TimeUnit :=
  if matchesCI "hour".data l then some .hourU
  else if matchesCI "minute".data l then some .minuteU
  else if matchesCI "second".data l then some .secondU
  else if matchesCI "day".data l then some .dayU
  else none

/-- Leftmost match of the regex (\d+)\s*(hour|minute|second|day)/i. -/
def scanWord : List Char → Option (Nat × TimeUnit)
  | [] => none
  | c :: cs =>
    if c.isDigit then
      let ds := (c :: cs).takeWhile Char.isDigit
      let afterWs := ((c :: cs).dropWhile Char.isDigit).dropWhile Char.isWhitespace
      match wordUnitAt afterWs with
      | some tu => some (natOfDigits ds, tu)
      | none => scanWord cs
    else scanWord cs

/-- Leftmost match of the regex (\d+):(\d+):?(\d+)? returning the first
two groups (the optional seconds group is ignored by the caller). -/
def scanClock : List Char → Option (Nat × Nat)
  | [] => none
  | c :: cs =>
    if c.isDigit then
      let ds := (c :: cs).takeWhile Char.isDigit
      match (c :: cs).dropWhile Char.isDigit with
      | ':' :: r2 =>
        match r2 with
        | d :: _ =>
          if d.isDigit then some (natOfDigits ds, natOfDigits (r2.takeWhile Char.isDigit))
          else scanClock cs
        | [] => scanClock cs
      | _ => scanClock cs
    else scanClock cs

/-- Minutes contributed by a value and unit: value*60 for hours, value
for minutes, Math.ceil(value/60) for seconds, value*24*60 for days. -/
def unitToMinutes (v : Nat) : TimeUnit → Nat
  | .hourU => v * 60
  | .minuteU => v
  | .secondU => (v + 59) / 60
  | .dayU => v * 24 * 60

/-- parseTimeToMinutes from the scraper module: a falsy (absent or
empty) input yields null; otherwise the compact form is tried first,
then the word form, then the clock form (hours*60 + minutes), and null
when nothing matches. -/
def parseTimeToMinutes : Option String → Option ℚ
  | none => none
  | some s =>
    if s = "" then none
    else
      match scanShort s.data with
      | some (v, u) => some ((unitToMinutes v u : ℕ) : ℚ)
      | none =>
        match scanWord s.data with
        | some (v, u) => some ((unitToMinutes v u : ℕ) : ℚ)
        | none =>
          match scanClock s.data with
          | some (h, m) => some (((h * 60 + m : ℕ) : ℚ))
          | none => none

/-- One scraped migration record as the tracker consumes it.  The
fields the tracker and the entry point read are kept; presentation-only
fields of the scraped object (rawText, element, scrapedAt) are never
read by the tracker and are omitted from the embedding. -/
structure Migration where
  debug : Bool
  id : Option String
  address : Option String
  name : Option String
  timeText : Option String
  minutesUntil : Option ℚ
  deriving DecidableEq

/-- JavaScript truthiness of an optional string field: absent and empty
strings are falsy. -/
def strTruthy : Option String → Bool
  | none => false
  | some s => s ≠ ""

/-- The identity the tracker derives: migration.id, with JavaScript
or-fallback to migration.address and then migration.name; none when all
three are falsy (the tracker then skips the record). -/
def entityId (m : Migration) : Option String :=
  if strTruthy m.id then m.id
  else if strTruthy m.address then m.address
  else if strTruthy m.name then m.name
  else none

/-- Tier classification, the nested conditional of tracker.js. -/
def classifyTier (minutesUntil : ℚ) : Tier :=
  if minutesUntil ≤ 5 then .imminent
  else if minutesUntil ≤ 15 then .soon
  else if minutesUntil ≤ 30 then .upcoming
  else .scheduled

/-- The persisted seen-migrations object: a map from alert keys to the
millisecond timestamp of the last fire. -/
abbrev LedgerMap := String → Option Int

/-- The empty seen-migrations object. -/
def emptyLedger : LedgerMap := fun _ => none

/-- Upsert of one key, as the assignment seen[alertKey] = now. -/
def record (seen : LedgerMap) (key : String) (now : Int) : LedgerMap :=
  fun k => if k = key then some now else seen k

/-- The tracker's re-alert guard: fire when the key has no entry, the
stored timestamp is falsy (zero), or the age reaches the cooldown;
suppress only when a truthy entry is younger than the cooldown. -/
def shouldFire (seen : LedgerMap) (key : String) (now cdMs : Int) : Bool :=
  match seen key with
  | none => true
  | some lastAlert => if lastAlert ≠ 0 ∧ now - lastAlert < cdMs then false else true

/-- The cleanup loop at the end of the tracker: every entry whose
timestamp is older than now minus the retention window is deleted. -/
def evictOlderThan (seen : LedgerMap) (now retMs : Int) : LedgerMap :=
  fun k =>
    match seen k with
    | some v => if v < now - retMs then none else some v
    | none => none

/-- The 10-minute re-alert cooldown hardcoded in the tracker. -/
def cooldownMs : Int := 10 * 60 * 1000

/-- The 24-hour retention window hardcoded in the tracker. -/
def retentionMs : Int := 24 * 60 * 60 * 1000

/-- The deduplication key string, id ++ "_" ++ tier. -/
def alertKey (id : String) (tier : Tier) : String :=
  id ++ "_" ++ tierName tier

/-- One element of the tracker's output: the original record spread
together with the alertTier and minutesUntil fields pushed onto
toAlert. -/
structure Alert where
  migration : Migration
  alertTier : Tier
  minutesUntil : ℚ
  deriving DecidableEq

/-- The per-record filter chain of the tracker loop: skip debug
records, records without a derivable id, records without a known
minutesUntil, and records beyond the threshold; otherwise return the
alert key, tier and minutes of the record. -/
def alertDecision (migration : Migration) (thresholdMinutes : ℚ) :
    Option (String × Tier × ℚ) :=
  if migration.debug then none
  else
    match entityId migration with
    | none => none
    | some id =>
      match migration.minutesUntil with
      | none => none
      | some minutesUntil =>
        if minutesUntil > thresholdMinutes then none
        else
          let alertTier := classifyTier minutesUntil
          some (alertKey id alertTier, alertTier, minutesUntil)

/-- The tracker's main loop over the input list: a record that passes
the filter chain and the cooldown guard is recorded in the ledger and
pushed onto the output, in input order. -/
def processMigrations : List Migration → LedgerMap → Int → ℚ → List Alert × LedgerMap
  | [], seen, _, _ => ([], seen)
  | migration :: rest, seen, now, thresholdMinutes =>
    match alertDecision migration thresholdMinutes with
    | none => processMigrations rest seen now thresholdMinutes
    | some (key, alertTier, minutesUntil) =>
      if shouldFire seen key now cooldownMs then
        let r := processMigrations rest (record seen key now) now thresholdMinutes
        (⟨migration, alertTier, minutesUntil⟩ :: r.1, r.2)
      else processMigrations rest seen now thresholdMinutes

/-- getMigrationsToAlert of tracker.js, with the loaded ledger and the
clock passed explicitly: runs the loop, then evicts entries older than
24 hours from the final ledger (the saved state). -/
def getMigrationsToAlert (migrations : List Migration) (thresholdMinutes : ℚ)
    (seen : LedgerMap) (now : Int) : List Alert × LedgerMap :=
  let r := processMigrations migrations seen now thresholdMinutes
  (r.1, evictOlderThan r.2 now retentionMs)

/-- State of the backing file behind loadSeenMigrations: absent,
present but unparseable, or a parsed object. -/
inductive BackingStore where
  | missing
  | corrupt
  | valid (contents : LedgerMap)

/-- loadSeenMigrations of tracker.js: a missing file and a read or
parse failure (the catch branch) both yield the empty object; only a
valid file yields its contents.  The function is total, so a load
never propagates an error to the caller. -/
def loadSeenMigrations : BackingStore → LedgerMap
  | .missing => emptyLedger
  | .corrupt => emptyLedger
  | .valid contents => contents

/-- The entry-point glue: attach minutesUntil computed from timeText to
one scraped record. -/
def withMinutes (m : Migration) : Migration :=
  ⟨m.debug, m.id, m.address, m.name, m.timeText, parseTimeToMinutes m.timeText⟩

/-- The entry-point glue over the whole scrape result. -/
def addMinutes (ms : List Migration) : List Migration :=
  ms.map withMinutes

/-- The (entityId, tier) pair of an output alert. -/
def pairKeyOf (a : Alert) : Option String × Tier :=
  (entityId a.migration, a.alertTier)

/-- The key string determined by an (entityId, tier) pair; the none
case never occurs for alerts the tracker emits. -/
def keyString : Option String × Tier → String
  | (some i, t) => alertKey i t
  | (none, _) => ""

/-- The key string of an output alert. -/
def alertKeyOf (a : Alert) : String :=
  keyString (pairKeyOf a)

/-- A scraped record announcing a migration in 4 minutes. -/
def migFourMin : Migration :=
  ⟨false, some "TOK", none, some "Token", some "4m", none⟩

/-- A scraped record for the same entity announcing 20 minutes. -/
def migTwentyMin : Migration :=
  ⟨false, some "TOK", none, some "Token", some "20m", none⟩

/-- A tracker input with known minutes 3 (tier imminent). -/
def migDupA : Migration :=
  ⟨false, some "TOK", none, some "Token", none, some 3⟩

/-- A second tracker input with the same entity and tier (minutes 4). -/
def migDupB : Migration :=
  ⟨false, some "TOK", none, some "Token", none, some 4⟩

/-- Unfolding of the loop on the empty list. -/
theorem processMigrations_nil (seen : LedgerMap) (now : Int) (thr : ℚ) :
    processMigrations [] seen now thr = ([], seen) := rfl

/-- Unfolding of the loop when the head record is filtered out. -/
theorem processMigrations_cons_none {m : Migration} {thr : ℚ}
    (h : alertDecision m thr = none) (rest : List Migration) (seen : LedgerMap) (now : Int) :
    processMigrations (m :: rest) seen now thr = processMigrations rest seen now thr := by
  simp [processMigrations, h]

/-- Unfolding of the loop when the head record passes the filters and
the cooldown guard: it is recorded and pushed. -/
theorem processMigrations_cons_fire {m : Migration} {thr : ℚ} {key : String} {t : Tier}
    {mu : ℚ} (h : alertDecision m thr = some (key, t, mu)) {seen : LedgerMap} {now : Int}
    (hf : shouldFire seen key now cooldownMs = true) (rest : List Migration) :
    processMigrations (m :: rest) seen now thr =
      (⟨m, t, mu⟩ :: (processMigrations rest (record seen key now) now thr).1,
       (processMigrations rest (record seen key now) now thr).2) := by
  simp [processMigrations, h, hf]

/-- Unfolding of the loop when the head record is suppressed by the
cooldown guard. -/
theorem processMigrations_cons_skip {m : Migration} {thr : ℚ} {key : String} {t : Tier}
    {mu : ℚ} (h : alertDecision m thr = some (key, t, mu)) {seen : LedgerMap} {now : Int}
    (hf : shouldFire seen key now cooldownMs = false) (rest : List Migration) :
    processMigrations (m :: rest) seen now thr = processMigrations rest seen now thr := by
  simp [processMigrations, h, hf]

/-- What a positive filter decision tells about the record. -/
theorem alertDecision_spec {m : Migration} {thr : ℚ} {key : String} {t : Tier} {mu : ℚ}
    (h : alertDecision m thr = some (key, t, mu)) :
    m.debug = false ∧ ∃ i, entityId m = some i ∧ m.minutesUntil = some mu ∧
      t = classifyTier mu ∧ key = alertKey i t ∧ ¬ mu > thr := by
  by_cases hd : m.debug = true
  · simp [alertDecision, hd] at h
  · simp only [Bool.not_eq_true] at hd
    rcases hi : entityId m with _ | i
    · simp [alertDecision, hd, hi] at h
    · rcases hmu : m.minutesUntil with _ | mu'
      · simp [alertDecision, hd, hi, hmu] at h
      · by_cases hth : mu' > thr
        · simp [alertDecision, hd, hi, hmu, hth] at h
        · refine ⟨hd, i, rfl, ?_⟩
          simp only [alertDecision, hd, hi, hmu, Bool.false_eq_true, if_false,
            if_neg hth, Option.some.injEq, Prod.mk.injEq] at h
          obtain ⟨hk, ht, hm⟩ := h
          subst hm
          refine ⟨rfl, ht.symm, ?_, hth⟩
          rw [← hk, ht]

/-- The key string of a pushed alert is the key the loop recorded. -/
theorem alertKeyOf_mk {m : Migration} {thr : ℚ} {key : String} {t : Tier} {mu : ℚ}
    (h : alertDecision m thr = some (key, t, mu)) :
    alertKeyOf ⟨m, t, mu⟩ = key := by
  obtain ⟨-, i, hi, -, -, hk, -⟩ := alertDecision_spec h
  simp [alertKeyOf, pairKeyOf, hi, keyString, hk]

/-- A suppressed key has a truthy entry younger than the cooldown. -/
theorem shouldFire_eq_false {seen : LedgerMap} {key : String} {now cd : Int}
    (h : shouldFire seen key now cd = false) :
    ∃ v, seen key = some v ∧ v ≠ 0 ∧ now - v < cd := by
  unfold shouldFire at h
  rcases hk : seen key with _ | v <;> rw [hk] at h
  · simp at h
  · refine ⟨v, rfl, ?_⟩
    have h' : (if v ≠ 0 ∧ now - v < cd then false else true) = false := h
    by_cases hc : v ≠ 0 ∧ now - v < cd
    · exact hc
    · rw [if_neg hc] at h'
      simp at h'

/-- A key last fired at a nonzero timestamp is suppressed while the
age is below the cooldown. -/
theorem shouldFire_within {seen : LedgerMap} {key : String} {now now' cd : Int}
    (h : seen key = some now) (h0 : now ≠ 0) (hlt : now' - now < cd) :
    shouldFire seen key now' cd = false := by
  unfold shouldFire
  rw [h]
  show (if now ≠ 0 ∧ now' - now < cd then false else true) = false
  rw [if_pos ⟨h0, hlt⟩]

/-- Distinct tiers have distinct name strings. -/
theorem tierName_data_ne {t1 t2 : Tier} (h : t1 ≠ t2) :
    (tierName t1).data ≠ (tierName t2).data := by
  cases t1 <;> cases t2 <;> first
    | exact absurd rfl h
    | exact fun hd => absurd hd (by decide)

/-- Keys of the same entity at distinct tiers are distinct strings. -/
theorem alertKey_tier_inj {i : String} {t1 t2 : Tier} (h : t1 ≠ t2) :
    alertKey i t1 ≠ alertKey i t2 := by
  intro he
  apply tierName_data_ne h
  have hd := congrArg String.data he
  simp only [alertKey, String.data_append] at hd
  exact List.append_cancel_left hd

/-- The output of a run characterises its members: each comes from the
input list and passed the filter chain with its own tier, minutes and
key. -/
theorem mem_processMigrations {migs : List Migration} {seen : LedgerMap} {now : Int}
    {thr : ℚ} {a : Alert} (h : a ∈ (processMigrations migs seen now thr).1) :
    a.migration ∈ migs ∧
      alertDecision a.migration thr = some (alertKeyOf a, a.alertTier, a.minutesUntil) := by
  induction migs generalizing seen with
  | nil => simp [processMigrations_nil] at h
  | cons m rest ih =>
    rcases hdec : alertDecision m thr with _ | ⟨key, t, mu⟩
    · rw [processMigrations_cons_none hdec] at h
      obtain ⟨h1, h2⟩ := ih h
      exact ⟨List.mem_cons_of_mem m h1, h2⟩
    · cases hf : shouldFire seen key now cooldownMs with
      | false =>
        rw [processMigrations_cons_skip hdec hf] at h
        obtain ⟨h1, h2⟩ := ih h
        exact ⟨List.mem_cons_of_mem m h1, h2⟩
      | true =>
        rw [processMigrations_cons_fire hdec hf] at h
        rcases List.mem_cons.mp h with rfl | h'
        · refine ⟨List.mem_cons_self m rest, ?_⟩
          rw [alertKeyOf_mk hdec]
          exact hdec
        · obtain ⟨h1, h2⟩ := ih h'
          exact ⟨List.mem_cons_of_mem m h1, h2⟩

/-- Recording one key leaves every other key unchanged. -/
theorem record_apply_ne {seen : LedgerMap} {key k : String} {now : Int} (h : k ≠ key) :
    record seen key now k = seen k := by
  simp [record, h]

/-- Recording a key stores the current timestamp at that key. -/
theorem record_apply_self (seen : LedgerMap) (key : String) (now : Int) :
    record seen key now key = some now := by
  simp [record]

/-- A key carried by no output alert is left untouched by the loop. -/
theorem ledger_frame {migs : List Migration} {seen : LedgerMap} {now : Int} {thr : ℚ}
    {k : String} (h : ∀ a ∈ (processMigrations migs seen now thr).1, alertKeyOf a ≠ k) :
    (processMigrations migs seen now thr).2 k = seen k := by
  induction migs generalizing seen with
  | nil => rfl
  | cons m rest ih =>
    rcases hdec : alertDecision m thr with _ | ⟨key, t, mu⟩
    · rw [processMigrations_cons_none hdec] at h ⊢
      exact ih h
    · cases hf : shouldFire seen key now cooldownMs with
      | false =>
        rw [processMigrations_cons_skip hdec hf] at h ⊢
        exact ih h
      | true =>
        rw [processMigrations_cons_fire hdec hf] at h ⊢
        have hkey : key ≠ k := by
          have hh := h ⟨m, t, mu⟩ (List.mem_cons_self _ _)
          rwa [alertKeyOf_mk hdec] at hh
        have h' : ∀ a ∈ (processMigrations rest (record seen key now) now thr).1,
            alertKeyOf a ≠ k := fun a ha => h a (List.mem_cons_of_mem _ ha)
        exact (ih h').trans (record_apply_ne (Ne.symm hkey))

/-- An entry holding the current timestamp survives the rest of the
loop. -/
theorem recorded_persists {migs : List Migration} {seen : LedgerMap} {now : Int} {thr : ℚ}
    {k : String} (h : seen k = some now) :
    (processMigrations migs seen now thr).2 k = some now := by
  induction migs generalizing seen with
  | nil => exact h
  | cons m rest ih =>
    rcases hdec : alertDecision m thr with _ | ⟨key, t, mu⟩
    · rw [processMigrations_cons_none hdec]
      exact ih h
    · cases hf : shouldFire seen key now cooldownMs with
      | false =>
        rw [processMigrations_cons_skip hdec hf]
        exact ih h
      | true =>
        rw [processMigrations_cons_fire hdec hf]
        by_cases hk : k = key
        · subst hk
          exact ih (record_apply_self seen k now)
        · exact ih ((record_apply_ne hk).trans h)

/-- After a run in which every relevant key starts absent or already at
the current timestamp, every key that passes the filter chain ends at
the current timestamp. -/
theorem keys_recorded {migs : List Migration} {seen : LedgerMap} {now : Int} {thr : ℚ}
    (h : ∀ m ∈ migs, ∀ key t mu, alertDecision m thr = some (key, t, mu) →
        seen key = none ∨ seen key = some now) :
    ∀ m ∈ migs, ∀ key t mu, alertDecision m thr = some (key, t, mu) →
      (processMigrations migs seen now thr).2 key = some now := by
  induction migs generalizing seen with
  | nil => intro m hm; exact absurd hm (List.not_mem_nil m)
  | cons m0 rest ih =>
    intro m hm key t mu hdec2
    rcases hdec : alertDecision m0 thr with _ | ⟨key0, t0, mu0⟩
    · rw [processMigrations_cons_none hdec]
      rcases List.mem_cons.mp hm with rfl | hm'
      · rw [hdec] at hdec2
        exact absurd hdec2 (by simp)
      · exact ih (fun m' hm'' => h m' (List.mem_cons_of_mem _ hm'')) m hm' key t mu hdec2
    · cases hf : shouldFire seen key0 now cooldownMs with
      | true =>
        rw [processMigrations_cons_fire hdec hf]
        have hseen' : ∀ m' ∈ rest, ∀ k' t' mu', alertDecision m' thr = some (k', t', mu') →
            record seen key0 now k' = none ∨ record seen key0 now k' = some now := by
          intro m' hm'' k' t' mu' hd'
          by_cases hk : k' = key0
          · subst hk
            exact Or.inr (record_apply_self seen k' now)
          · rw [record_apply_ne hk]
            exact h m' (List.mem_cons_of_mem _ hm'') k' t' mu' hd'
        rcases List.mem_cons.mp hm with rfl | hm'
        · rw [hdec] at hdec2
          simp only [Option.some.injEq, Prod.mk.injEq] at hdec2
          obtain ⟨hkk, -, -⟩ := hdec2
          subst hkk
          exact recorded_persists (record_apply_self seen key0 now)
        · exact ih hseen' m hm' key t mu hdec2
      | false =>
        rw [processMigrations_cons_skip hdec hf]
        obtain ⟨v, hv, hv0, hvlt⟩ := shouldFire_eq_false hf
        have hvnow : seen key0 = some now := by
          rcases h m0 (List.mem_cons_self _ _) key0 t0 mu0 hdec with hnone | hsome
          · rw [hv] at hnone
            exact absurd hnone (by simp)
          · exact hsome
        rcases List.mem_cons.mp hm with rfl | hm'
        · rw [hdec] at hdec2
          simp only [Option.some.injEq, Prod.mk.injEq] at hdec2
          obtain ⟨hkk, -, -⟩ := hdec2
          subst hkk
          exact recorded_persists hvnow
        · exact ih (fun m' hm'' => h m' (List.mem_cons_of_mem _ hm'')) m hm' key t mu hdec2

/-- A run at a later time still inside the cooldown of a ledger that
already holds every relevant key at a nonzero timestamp emits
nothing. -/
theorem run_within_cooldown_empty {migs : List Migration} {seen : LedgerMap} {thr : ℚ}
    {now now' : Int} (h0 : now ≠ 0) (hlt : now' - now < cooldownMs)
    (h : ∀ m ∈ migs, ∀ key t mu, alertDecision m thr = some (key, t, mu) →
        seen key = some now) :
    (processMigrations migs seen now' thr).1 = [] := by
  induction migs with
  | nil => rfl
  | cons m rest ih =>
    rcases hdec : alertDecision m thr with _ | ⟨key, t, mu⟩
    · rw [processMigrations_cons_none hdec]
      exact ih (fun m' hm' => h m' (List.mem_cons_of_mem _ hm'))
    · have hs : seen key = some now := h m (List.mem_cons_self _ _) key t mu hdec
      have hf : shouldFire seen key now' cooldownMs = false := shouldFire_within hs h0 hlt
      rw [processMigrations_cons_skip hdec hf]
      exact ih (fun m' hm' => h m' (List.mem_cons_of_mem _ hm'))

/-- A key already holding the current (nonzero) timestamp never fires
during the loop. -/
theorem not_mem_keys_of_recorded {migs : List Migration} {seen : LedgerMap} {thr : ℚ}
    {now : Int} {k : String} (hk : seen k = some now) (h0 : now ≠ 0) :
    k ∉ (processMigrations migs seen now thr).1.map alertKeyOf := by
  induction migs generalizing seen with
  | nil => simp [processMigrations_nil]
  | cons m rest ih =>
    rcases hdec : alertDecision m thr with _ | ⟨key, t, mu⟩
    · rw [processMigrations_cons_none hdec]
      exact ih hk
    · cases hf : shouldFire seen key now cooldownMs with
      | false =>
        rw [processMigrations_cons_skip hdec hf]
        exact ih hk
      | true =>
        intro hmem
        rw [processMigrations_cons_fire hdec hf] at hmem
        simp only [List.map_cons, List.mem_cons, alertKeyOf_mk hdec] at hmem
        rcases hmem with heq | hmem'
        · subst heq
          have : now - now < cooldownMs := by norm_num [cooldownMs]
          rw [shouldFire_within hk h0 this] at hf
          exact Bool.false_ne_true hf
        · have hk' : record seen key now k = some now := by
            by_cases hkk : k = key
            · subst hkk
              exact record_apply_self seen k now
            · exact (record_apply_ne hkk).trans hk
          exact ih hk' hmem'

/-- The key strings of a run's output are pairwise distinct. -/
theorem keys_nodup {migs : List Migration} {seen : LedgerMap} {thr : ℚ} {now : Int}
    (h0 : now ≠ 0) :
    ((processMigrations migs seen now thr).1.map alertKeyOf).Nodup := by
  induction migs generalizing seen with
  | nil => simp [processMigrations_nil]
  | cons m rest ih =>
    rcases hdec : alertDecision m thr with _ | ⟨key, t, mu⟩
    · rw [processMigrations_cons_none hdec]
      exact ih
    · cases hf : shouldFire seen key now cooldownMs with
      | false =>
        rw [processMigrations_cons_skip hdec hf]
        exact ih
      | true =>
        rw [processMigrations_cons_fire hdec hf]
        simp only [List.map_cons, List.nodup_cons]
        refine ⟨?_, ih⟩
        rw [alertKeyOf_mk hdec]
        exact not_mem_keys_of_recorded (record_apply_self seen key now) h0

/-- C1 counterexample: immediately after record(k, 1000), at age exactly
cooldownMs the guard fires (returns true) although the entry's age does
not exceed cooldownMs, so the claimed iff is false at this input. -/
theorem C1_boundary_counterexample :
    (record emptyLedger "TOK_imminent" 1000) "TOK_imminent" = some 1000 ∧
    shouldFire (record emptyLedger "TOK_imminent" 1000) "TOK_imminent" 601000 cooldownMs
      = true ∧
    ¬ ((601000 - 1000 : Int) > cooldownMs) := by
  refine ⟨rfl, by decide, by decide⟩

/-- C1 (amended): after record(k, t) with a nonzero timestamp,
shouldFire(k, t', cooldownMs) is true iff the age t' - t is at least
(not strictly greater than) cooldownMs; a key with no entry always
fires; and both boundary examples of the claim hold.  shouldFire is a
pure function of the ledger, so it mutates nothing. -/
theorem C1_record_shouldFire (seen : LedgerMap) (key : String) (t t' cd : Int)
    (ht : t ≠ 0) :
    (shouldFire (record seen key t) key t' cd = true ↔ cd ≤ t' - t) ∧
    (seen key = none → shouldFire seen key t' cd = true) ∧
    shouldFire (record seen key t) key (t + cd - 1) cd = false ∧
    shouldFire (record seen key t) key (t + cd + 1) cd = true := by
  have hrec : (record seen key t) key = some t := record_apply_self seen key t
  refine ⟨?_, ?_, ?_, ?_⟩
  · unfold shouldFire
    rw [hrec]
    show (if t ≠ 0 ∧ t' - t < cd then false else true) = true ↔ cd ≤ t' - t
    by_cases hc : t' - t < cd
    · rw [if_pos ⟨ht, hc⟩]
      simp
      omega
    · rw [if_neg (fun hand => hc hand.2)]
      simp
      omega
  · intro hnone
    unfold shouldFire
    rw [hnone]
  · unfold shouldFire
    rw [hrec]
    show (if t ≠ 0 ∧ t + cd - 1 - t < cd then false else true) = false
    rw [if_pos ⟨ht, by omega⟩]
  · unfold shouldFire
    rw [hrec]
    show (if t ≠ 0 ∧ t + cd + 1 - t < cd then false else true) = true
    rw [if_neg (fun hand => by omega)]

/-- Witness for the amended C1 at concrete inputs. -/
theorem C1_record_shouldFire_witness :
    (shouldFire (record emptyLedger "TOK" 1000) "TOK" 1601000 cooldownMs = true ↔
      cooldownMs ≤ 1601000 - 1000) ∧
    (emptyLedger "TOK" = none → shouldFire emptyLedger "TOK" 1601000 cooldownMs = true) ∧
    shouldFire (record emptyLedger "TOK" 1000) "TOK" (1000 + cooldownMs - 1) cooldownMs
      = false ∧
    shouldFire (record emptyLedger "TOK" 1000) "TOK" (1000 + cooldownMs + 1) cooldownMs
      = true :=
  C1_record_shouldFire emptyLedger "TOK" 1000 1601000 cooldownMs (by decide)

/-- C2: no output alert carries a debug record or an unknown
minutesUntil, the emitted minutes are exactly the record's own known
minutes (never a substituted zero), and for records produced by the
entry-point glue the emitted minutes are exactly what parseTimeToMinutes
returned for the record's timeText. -/
theorem C2_no_debug_no_unknown (migs : List Migration) (thr : ℚ) (seen : LedgerMap)
    (now : Int) :
    (∀ a ∈ (getMigrationsToAlert migs thr seen now).1,
        a.migration.debug = false ∧ a.migration.minutesUntil = some a.minutesUntil) ∧
    (∀ raws : List Migration, ∀ a ∈ (getMigrationsToAlert (addMinutes raws) thr seen now).1,
        parseTimeToMinutes a.migration.timeText = some a.minutesUntil) := by
  constructor
  · intro a ha
    obtain ⟨-, hdec⟩ := mem_processMigrations (a := a) ha
    obtain ⟨hd, i, hi, hmu, -, -, -⟩ := alertDecision_spec hdec
    exact ⟨hd, hmu⟩
  · intro raws a ha
    obtain ⟨hmem, hdec⟩ := mem_processMigrations (a := a) ha
    obtain ⟨-, i, hi, hmu, -, -, -⟩ := alertDecision_spec hdec
    obtain ⟨r, -, hwr⟩ := List.mem_map.mp hmem
    have ht : a.migration.timeText = r.timeText := by rw [← hwr]; rfl
    have hm : a.migration.minutesUntil = parseTimeToMinutes r.timeText := by rw [← hwr]; rfl
    rw [ht, ← hm, hmu]

/-- Witness for C2 at a concrete run with a nonempty output. -/
theorem C2_no_debug_no_unknown_witness :
    (⟨migDupA, Tier.imminent, 3⟩ : Alert).migration.debug = false ∧
    (⟨migDupA, Tier.imminent, 3⟩ : Alert).migration.minutesUntil =
      some (⟨migDupA, Tier.imminent, 3⟩ : Alert).minutesUntil :=
  (C2_no_debug_no_unknown [migDupA, migDupB] 30 emptyLedger 1000).1
    ⟨migDupA, Tier.imminent, 3⟩ (by decide)

/-- C3: tier classification is total with inclusive upper edges, every
minutes value lands in exactly one tier, the boundary values 5, 15, 30
map to imminent, soon, upcoming, and 30.0001 maps to scheduled. -/
theorem C3_tier_boundaries (m : ℚ) :
    ((classifyTier m = Tier.imminent ↔ m ≤ 5) ∧
     (classifyTier m = Tier.soon ↔ 5 < m ∧ m ≤ 15) ∧
     (classifyTier m = Tier.upcoming ↔ 15 < m ∧ m ≤ 30) ∧
     (classifyTier m = Tier.scheduled ↔ 30 < m)) ∧
    classifyTier 5 = Tier.imminent ∧ classifyTier 15 = Tier.soon ∧
    classifyTier 30 = Tier.upcoming ∧
    classifyTier (300001 / 10000 : ℚ) = Tier.scheduled := by
  constructor
  · unfold classifyTier
    split_ifs with h1 h2 h3
    · exact ⟨iff_of_true rfl h1,
        iff_of_false (by simp) (fun hx => by linarith [hx.1]),
        iff_of_false (by simp) (fun hx => by linarith [hx.1]),
        iff_of_false (by simp) (fun hx => by linarith)⟩
    · exact ⟨iff_of_false (by simp) (fun hx => h1 hx),
        iff_of_true rfl ⟨not_le.mp h1, h2⟩,
        iff_of_false (by simp) (fun hx => by linarith [hx.1]),
        iff_of_false (by simp) (fun hx => by linarith)⟩
    · exact ⟨iff_of_false (by simp) (fun hx => h1 hx),
        iff_of_false (by simp) (fun hx => h2 hx.2),
        iff_of_true rfl ⟨not_le.mp h2, h3⟩,
        iff_of_false (by simp) (fun hx => by linarith)⟩
    · exact ⟨iff_of_false (by simp) (fun hx => h1 hx),
        iff_of_false (by simp) (fun hx => h2 hx.2),
        iff_of_false (by simp) (fun hx => h3 hx.2),
        iff_of_true rfl (not_le.mp h3)⟩
  · exact ⟨by decide, by decide, by decide, by norm_num [classifyTier]⟩

/-- C4: the concrete parses of the claim, and the compact-unit law --
whenever the compact-form regex matches first with value v and unit u,
parseTimeToMinutes returns exactly the v/u conversion (value*60 for h,
value for m, ceil(value/60) for s), regardless of the word and clock
forms. -/
theorem C4_parse_values (s : String) (v : Nat) (u : TimeUnit)
    (hne : s ≠ "") (hscan : scanShort s.data = some (v, u)) :
    parseTimeToMinutes (some s) = some ((unitToMinutes v u : ℕ) : ℚ) ∧
    (unitToMinutes v .hourU = v * 60 ∧ unitToMinutes v .minuteU = v ∧
      unitToMinutes v .secondU = (v + 59) / 60) ∧
    parseTimeToMinutes (some "30m") = some 30 ∧
    parseTimeToMinutes (some "2h") = some 120 ∧
    parseTimeToMinutes (some "45s") = some 1 ∧
    parseTimeToMinutes (some "1:30") = some 90 ∧
    parseTimeToMinutes (some "garbage") = none := by
  refine ⟨?_, ⟨rfl, rfl, rfl⟩, by decide, by decide, by decide, by decide, by decide⟩
  simp only [parseTimeToMinutes]
  rw [if_neg hne, hscan]

/-- Witness for C4 at the concrete compact string 7h. -/
theorem C4_parse_values_witness :
    parseTimeToMinutes (some "7h") = some ((unitToMinutes 7 TimeUnit.hourU : ℕ) : ℚ) :=
  (C4_parse_values "7h" 7 TimeUnit.hourU (by decide) (by decide)).1

/-- C5: the entity identity is the id field when truthy; when both id
and address are absent or empty it falls back to the display name; and
every emitted alert has a derivable entity identity (records without
one are discarded). -/
theorem C5_entity_identity (m : Migration) (migs : List Migration) (thr : ℚ)
    (seen : LedgerMap) (now : Int) :
    (strTruthy m.id = true → entityId m = m.id) ∧
    (strTruthy m.id = false → strTruthy m.address = false →
      entityId m = if strTruthy m.name then m.name else none) ∧
    (∀ a ∈ (getMigrationsToAlert migs thr seen now).1,
      (entityId a.migration).isSome = true) := by
  refine ⟨?_, ?_, ?_⟩
  · intro h
    simp [entityId, h]
  · intro h1 h2
    simp [entityId, h1, h2]
  · intro a ha
    obtain ⟨-, hdec⟩ := mem_processMigrations (a := a) ha
    obtain ⟨-, i, hi, -, -, -, -⟩ := alertDecision_spec hdec
    simp [hi]

/-- Witness for C5 at concrete inputs. -/
theorem C5_entity_identity_witness :
    entityId migDupA = migDupA.id ∧
    (entityId (⟨migDupA, Tier.imminent, 3⟩ : Alert).migration).isSome = true := by
  have h := C5_entity_identity migDupA [migDupA, migDupB] 30 emptyLedger 1000
  exact ⟨h.1 (by decide), h.2.2 ⟨migDupA, Tier.imminent, 3⟩ (by decide)⟩

/-- C6: recording one tier of an entity never changes the cooldown
guard of a different tier of the same entity (the two keys are distinct
strings), and in the concrete two-observation cycle with timeText 4m
and 20m both tiers (imminent and upcoming) fire for the same entity. -/
theorem C6_tiers_independent (seen : LedgerMap) (i : String) (t1 t2 : Tier)
    (v now' cd : Int) (h : t1 ≠ t2) :
    shouldFire (record seen (alertKey i t1) v) (alertKey i t2) now' cd =
      shouldFire seen (alertKey i t2) now' cd ∧
    (getMigrationsToAlert (addMinutes [migFourMin, migTwentyMin]) 30 emptyLedger
        1000).1.map pairKeyOf =
      [(some "TOK", Tier.imminent), (some "TOK", Tier.upcoming)] := by
  refine ⟨?_, by decide⟩
  have hne : alertKey i t2 ≠ alertKey i t1 := alertKey_tier_inj (Ne.symm h)
  unfold shouldFire
  rw [record_apply_ne hne]

/-- Witness for C6 at concrete tiers. -/
theorem C6_tiers_independent_witness :
    shouldFire (record emptyLedger (alertKey "TOK" Tier.imminent) 5)
        (alertKey "TOK" Tier.soon) 10 cooldownMs =
      shouldFire emptyLedger (alertKey "TOK" Tier.soon) 10 cooldownMs ∧
    (getMigrationsToAlert (addMinutes [migFourMin, migTwentyMin]) 30 emptyLedger
        1000).1.map pairKeyOf =
      [(some "TOK", Tier.imminent), (some "TOK", Tier.upcoming)] :=
  C6_tiers_independent emptyLedger "TOK" Tier.imminent Tier.soon 5 10 cooldownMs
    (by decide)

/-- C7 counterexample: with a reachable prior ledger (an earlier run at
time 1), the same observation set is fed at 540001 and again at 600001,
60000 ms later and so within the 600000 ms cooldown window with the
tier unchanged, yet the second run is nonempty, because the pre-existing
entry's age crosses the cooldown between the two runs. -/
theorem C7_rerun_counterexample :
    (let s := addMinutes [migFourMin]
     let L0 := (getMigrationsToAlert s 30 emptyLedger 1).2
     let r1 := getMigrationsToAlert s 30 L0 540001
     let r2 := getMigrationsToAlert s 30 r1.2 600001
     ((600001 - 540001 : Int) < cooldownMs ∧ r1.1 = [] ∧ r2.1 ≠ [])) := by
  decide

/-- C7 (amended): feeding the same observation set twice within the
cooldown window yields zero alerts on the second run, provided no alert
key derivable from the set has a pre-existing ledger entry at the first
run (for example, starting from the empty ledger). -/
theorem C7_rerun_within_cooldown (migs : List Migration) (thr : ℚ) (seen : LedgerMap)
    (now now' : Int) (h0 : now ≠ 0) (hlt : now' - now < cooldownMs)
    (hfresh : ∀ m ∈ migs, ∀ key t mu, alertDecision m thr = some (key, t, mu) →
        seen key = none) :
    (getMigrationsToAlert migs thr (getMigrationsToAlert migs thr seen now).2 now').1
      = [] := by
  have hrec : ∀ m ∈ migs, ∀ key t mu, alertDecision m thr = some (key, t, mu) →
      (getMigrationsToAlert migs thr seen now).2 key = some now := by
    intro m hm key t mu hdec
    have h1 : (processMigrations migs seen now thr).2 key = some now :=
      keys_recorded (fun m' hm' k' t' mu' hd' => Or.inl (hfresh m' hm' k' t' mu' hd'))
        m hm key t mu hdec
    show evictOlderThan (processMigrations migs seen now thr).2 now retentionMs key
      = some now
    unfold evictOlderThan
    rw [h1]
    have hret : ¬ (now < now - retentionMs) := by
      unfold retentionMs
      omega
    show (if now < now - retentionMs then none else some now) = some now
    rw [if_neg hret]
  show (processMigrations migs (getMigrationsToAlert migs thr seen now).2 now' thr).1 = []
  exact run_within_cooldown_empty h0 hlt hrec

/-- Witness for the amended C7 at a concrete fresh run. -/
theorem C7_rerun_within_cooldown_witness :
    (getMigrationsToAlert (addMinutes [migFourMin]) 30
      (getMigrationsToAlert (addMinutes [migFourMin]) 30 emptyLedger 1000).2 1500).1
      = [] :=
  C7_rerun_within_cooldown (addMinutes [migFourMin]) 30 emptyLedger 1000 1500
    (by decide) (by decide) (fun _ _ _ _ _ _ => rfl)

/-- C8: an entry whose key did not fire in a call keeps its timestamp
when its age is at most the 24-hour retention and is removed exactly
when its age strictly exceeds it; an entry exactly at the boundary is
retained. -/
theorem C8_retention_boundary (migs : List Migration) (thr : ℚ) (seen : LedgerMap)
    (now : Int) (k : String) (v : Int) (hk : seen k = some v)
    (hnf : ∀ a ∈ (getMigrationsToAlert migs thr seen now).1, alertKeyOf a ≠ k) :
    ((getMigrationsToAlert migs thr seen now).2 k = some v ↔ now - v ≤ retentionMs) ∧
    ((getMigrationsToAlert migs thr seen now).2 k = none ↔ retentionMs < now - v) := by
  have hframe : (processMigrations migs seen now thr).2 k = seen k :=
    ledger_frame (fun a ha => hnf a ha)
  have heq : (getMigrationsToAlert migs thr seen now).2 k =
      (if v < now - retentionMs then none else some v) := by
    show evictOlderThan (processMigrations migs seen now thr).2 now retentionMs k = _
    unfold evictOlderThan
    rw [hframe, hk]
  by_cases hc : v < now - retentionMs
  · rw [heq, if_pos hc]
    exact ⟨iff_of_false (by simp) (by omega), iff_of_true rfl (by omega)⟩
  · rw [heq, if_neg hc]
    exact ⟨iff_of_true rfl (by omega), iff_of_false (by simp) (by omega)⟩

/-- Witness for C8: an entry of age 5 ms with no fired key. -/
theorem C8_retention_boundary_witness :
    ((getMigrationsToAlert [] 30 (record emptyLedger "X" 5) 10).2 "X" = some 5 ↔
      (10 - 5 : Int) ≤ retentionMs) ∧
    ((getMigrationsToAlert [] 30 (record emptyLedger "X" 5) 10).2 "X" = none ↔
      retentionMs < 10 - 5) :=
  C8_retention_boundary [] 30 (record emptyLedger "X" 5) 10 "X" 5
    (record_apply_self emptyLedger "X" 5) (fun a ha => absurd ha (List.not_mem_nil a))

/-- C9: loading from a missing or corrupt backing store yields the
empty ledger without raising, and the subsequent tracker call behaves
exactly as if no key had ever fired. -/
theorem C9_load_failure_empty (st : BackingStore) (migs : List Migration) (thr : ℚ)
    (now : Int) (h : st = BackingStore.missing ∨ st = BackingStore.corrupt) :
    loadSeenMigrations st = emptyLedger ∧
    getMigrationsToAlert migs thr (loadSeenMigrations st) now =
      getMigrationsToAlert migs thr emptyLedger now := by
  rcases h with rfl | rfl <;> exact ⟨rfl, rfl⟩

/-- Witness for C9 at a corrupt store. -/
theorem C9_load_failure_empty_witness :
    loadSeenMigrations BackingStore.corrupt = emptyLedger ∧
    getMigrationsToAlert [migFourMin] 30 (loadSeenMigrations BackingStore.corrupt) 1000 =
      getMigrationsToAlert [migFourMin] 30 emptyLedger 1000 :=
  C9_load_failure_empty BackingStore.corrupt [migFourMin] 30 1000 (Or.inr rfl)

/-- C10: within a single call, the output has at most one alert per key
string and per (entityId, tier) pair, and in the concrete batch with
two records sharing entity and tier only the first fires. -/
theorem C10_dedup_within_run (migs : List Migration) (thr : ℚ) (seen : LedgerMap)
    (now : Int) (h0 : now ≠ 0) :
    ((getMigrationsToAlert migs thr seen now).1.map alertKeyOf).Nodup ∧
    ((getMigrationsToAlert migs thr seen now).1.map pairKeyOf).Nodup ∧
    (getMigrationsToAlert [migDupA, migDupB] 30 emptyLedger 1000).1 =
      [⟨migDupA, Tier.imminent, 3⟩] := by
  have hstr : ((getMigrationsToAlert migs thr seen now).1.map alertKeyOf).Nodup :=
    keys_nodup h0
  refine ⟨hstr, ?_, by decide⟩
  apply List.Nodup.of_map keyString
  rw [List.map_map]
  exact hstr

/-- Witness for C10 at the concrete duplicate batch. -/
theorem C10_dedup_within_run_witness :
    ((getMigrationsToAlert [migDupA, migDupB] 30 emptyLedger 1000).1.map
      alertKeyOf).Nodup ∧
    ((getMigrationsToAlert [migDupA, migDupB] 30 emptyLedger 1000).1.map
      pairKeyOf).Nodup ∧
    (getMigrationsToAlert [migDupA, migDupB] 30 emptyLedger 1000).1 =
      [⟨migDupA, Tier.imminent, 3⟩] :=
  C10_dedup_within_run [migDupA, migDupB] 30 emptyLedger 1000 (by decide)

end MigrateFun
